import Mathlib

/-!
# Zeroclaw core — shallow embedding and verification

Lean embedding of the zeroclaw supervisor core (session state machine,
task distribution engine, agent process supervisor, plan artifact adapter),
translated from `distributor.js`, `planner.js` and `session.js`.

External effects (filesystem, tmux, child processes) are made explicit:
filesystem contents are passed as association lists, probe/launch outcomes
are parameters, and the distribution pipeline produces an explicit trace
of panes, commands, writes and logs.  A fallible external call that the
JavaScript does not catch is modelled with `Except`, so a propagating
exception is visible in the result type.
-/

namespace Zeroclaw

/-! ## Task assignment (`Distributor._assignTasks`)

The JavaScript builds a plain object keyed by agent name:

```js
_assignTasks(tasks, agents) {
  const assignments = {};
  agents.forEach(a => { assignments[a] = []; });
  tasks.forEach((task, i) => {
    const agent = agents[i % agents.length];
    assignments[agent].push(task);
  });
  return assignments;
}
```

A JavaScript object with string keys preserves insertion order, so it is
modelled as an association list with first-key-wins update semantics.
-/

/-- Assignment map: agent name to ordered task list (JS object, insertion order). -/
abbrev AMap := List (String × List String)

/-- `assignments[a].push(t)`: append `t` to the entry for key `a`
(no-op when the key is absent; callers only push to initialised keys). -/
def pushTask : AMap → String → String → AMap
  | [], _, _ => []
  | (k, ts) :: rest, a, t =>
    if k = a then (k, ts ++ [t]) :: rest else (k, ts) :: pushTask rest a t

/-- `assignments[a] = []`: reset the entry for key `a`, inserting it at the
end when absent (JS object key insertion order). -/
def initKey : AMap → String → AMap
  | [], a => [(a, [])]
  | (k, ts) :: rest, a =>
    if k = a then (k, []) :: rest else (k, ts) :: initKey rest a

/-- `agents[i % agents.length]` — the round-robin target for task index `i`.
Callers guarantee `agents` is non-empty (`run` fast-fails on an empty probe). -/
def agentAt (agents : List String) (i : Nat) : String :=
  agents.getD (i % agents.length) ""

/-- `Distributor._assignTasks`: initialise every agent's list, then push
task `i` onto `agents[i % agents.length]`'s list. -/
def assignTasks (tasks agents : List String) : AMap :=
  tasks.enum.foldl (fun m it => pushTask m (agentAt agents it.1) it.2)
    (agents.foldl initKey [])

/-- The task list assigned to worker `a` (empty when `a` is not a key). -/
def workerTasks (tasks agents : List String) (a : String) : List String :=
  (List.lookup a (assignTasks tasks agents)).getD []

/-! ### Lookup lemmas for the assignment fold -/

theorem lookup_cons_self (a : String) (ts : List String) (l : AMap) :
    List.lookup a ((a, ts) :: l) = some ts := by
  simp [List.lookup]

theorem lookup_cons_ne {a k : String} (ts : List String) (l : AMap)
    (h : a ≠ k) : List.lookup a ((k, ts) :: l) = List.lookup a l := by
  have hb : (a == k) = false := by simp [h]
  simp [List.lookup, hb]

theorem lookup_pushTask (m : AMap) (k t a) :
    List.lookup a (pushTask m k t)
      = if k = a then (List.lookup a m).map (· ++ [t]) else List.lookup a m := by
  induction m with
  | nil =>
    by_cases h : k = a <;> simp [pushTask, h]
  | cons kv rest ih =>
    obtain ⟨k', ts⟩ := kv
    by_cases hk : k' = k
    · subst hk
      by_cases ha : k' = a
      · subst ha
        simp [pushTask, lookup_cons_self]
      · simp [pushTask, ha, Ne.symm ha, lookup_cons_ne _ _ (Ne.symm ha)]
    · by_cases ha : k' = a
      · subst ha
        simp [pushTask, hk, Ne.symm hk, lookup_cons_self]
      · simp [pushTask, hk, Ne.symm ha, lookup_cons_ne _ _ (Ne.symm ha), ih]

theorem lookup_initKey (m : AMap) (b a) :
    List.lookup a (initKey m b)
      = if b = a then some [] else List.lookup a m := by
  induction m with
  | nil =>
    by_cases h : b = a
    · subst h; simp [initKey, lookup_cons_self]
    · simp [initKey, h, lookup_cons_ne _ _ (Ne.symm h)]
  | cons kv rest ih =>
    obtain ⟨k', ts⟩ := kv
    by_cases hk : k' = b
    · subst hk
      by_cases ha : k' = a
      · subst ha; simp [initKey, lookup_cons_self]
      · simp [initKey, ha, Ne.symm ha, lookup_cons_ne _ _ (Ne.symm ha)]
    · by_cases ha : k' = a
      · subst ha
        simp [initKey, hk, Ne.symm hk, lookup_cons_self]
      · simp [initKey, hk, Ne.symm ha, lookup_cons_ne _ _ (Ne.symm ha), ih]

theorem lookup_foldl_initKey (l : List String) (m : AMap) (a : String) :
    List.lookup a (l.foldl initKey m)
      = if a ∈ l then some [] else List.lookup a m := by
  induction l generalizing m with
  | nil => simp
  | cons b rest ih =>
    simp only [List.foldl_cons, ih, lookup_initKey, List.mem_cons]
    by_cases hb : b = a
    · subst hb
      by_cases hr : b ∈ rest <;> simp [hr]
    · by_cases hr : a ∈ rest <;> simp [hr, hb, Ne.symm hb]

theorem lookup_foldl_pushTask (agents : List String)
    (l : List (Nat × String)) (m : AMap) (a : String) :
    List.lookup a
      (l.foldl (fun m it => pushTask m (agentAt agents it.1) it.2) m)
      = (List.lookup a m).map
          (· ++ (l.filter (fun it => agentAt agents it.1 == a)).map Prod.snd) := by
  induction l generalizing m with
  | nil => simp
  | cons it rest ih =>
    obtain ⟨i, t⟩ := it
    simp only [List.foldl_cons, ih, lookup_pushTask]
    by_cases h : agentAt agents i = a
    · simp only [h, if_pos rfl, List.filter_cons, beq_self_eq_true, if_pos trivial]
      cases List.lookup a m <;> simp [List.append_assoc]
    · have hb : (agentAt agents i == a) = false := by
        simp [beq_iff_eq, h]
      simp [h, List.filter_cons, hb]

/-- Full characterisation of an assignment lookup: worker `a`'s list is the
round-robin filter of the indexed task list. -/
theorem assignTasks_lookup (tasks agents : List String) (a : String) :
    List.lookup a (assignTasks tasks agents)
      = if a ∈ agents then
          some ((tasks.enum.filter
            (fun it => agentAt agents it.1 == a)).map Prod.snd)
        else none := by
  unfold assignTasks
  rw [lookup_foldl_pushTask, lookup_foldl_initKey]
  by_cases h : a ∈ agents <;> simp [h]

/-! ### Key-set lemmas -/

theorem keys_pushTask (m : AMap) (k t) :
    (pushTask m k t).map Prod.fst = m.map Prod.fst := by
  induction m with
  | nil => rfl
  | cons kv rest ih =>
    obtain ⟨k', ts⟩ := kv
    by_cases h : k' = k <;> simp [pushTask, h, ih]

theorem mem_keys_initKey (m : AMap) (b a) :
    a ∈ (initKey m b).map Prod.fst ↔ b = a ∨ a ∈ m.map Prod.fst := by
  induction m with
  | nil => simp [initKey, eq_comm]
  | cons kv rest ih =>
    obtain ⟨k', ts⟩ := kv
    by_cases h : k' = b
    · subst h; simp [initKey, eq_comm]
    · simp [initKey, h, ih]; tauto

theorem mem_keys_foldl_initKey (l : List String) (m : AMap) (a : String) :
    a ∈ (l.foldl initKey m).map Prod.fst ↔ a ∈ l ∨ a ∈ m.map Prod.fst := by
  induction l generalizing m with
  | nil => simp
  | cons b rest ih =>
    rw [List.foldl_cons, ih, mem_keys_initKey, List.mem_cons]
    tauto

theorem keys_foldl_pushTask (agents : List String)
    (l : List (Nat × String)) (m : AMap) :
    (l.foldl (fun m it => pushTask m (agentAt agents it.1) it.2) m).map Prod.fst
      = m.map Prod.fst := by
  induction l generalizing m with
  | nil => rfl
  | cons it rest ih => simp [ih, keys_pushTask]

/-- The assignment's key set is exactly the available-worker set. -/
theorem mem_keys_assignTasks (tasks agents : List String) (a : String) :
    a ∈ (assignTasks tasks agents).map Prod.fst ↔ a ∈ agents := by
  unfold assignTasks
  rw [keys_foldl_pushTask, mem_keys_foldl_initKey]
  simp

theorem agentAt_mem {agents : List String} (h : agents ≠ []) (i : Nat) :
    agentAt agents i ∈ agents := by
  have hM : 0 < agents.length := List.length_pos.mpr h
  have hlt : i % agents.length < agents.length := Nat.mod_lt _ hM
  rw [agentAt, List.getD_eq_getElem _ _ hlt]
  exact List.getElem_mem hlt

/-! ### No task lost, none duplicated (permutation of the flattened values) -/

theorem vals_initKey (m : AMap) (b) (h : ∀ v ∈ m.map Prod.snd, v = ([] : List String)) :
    ∀ v ∈ (initKey m b).map Prod.snd, v = [] := by
  induction m with
  | nil => simp [initKey]
  | cons kv rest ih =>
    obtain ⟨k', ts⟩ := kv
    simp only [List.map_cons, List.mem_cons] at h
    have hts : ts = [] := h ts (Or.inl rfl)
    have hrest : ∀ v ∈ rest.map Prod.snd, v = ([] : List String) :=
      fun v hv => h v (Or.inr hv)
    by_cases hk : k' = b
    · subst hk
      simp [initKey]
      exact fun v x hv => hrest v (List.mem_map_of_mem Prod.snd hv)
    · simp [initKey, hk]
      exact ⟨hts, fun v x hv =>
        ih hrest v (List.mem_map_of_mem Prod.snd hv)⟩

theorem vals_foldl_initKey (l : List String) (m : AMap)
    (h : ∀ v ∈ m.map Prod.snd, v = ([] : List String)) :
    ∀ v ∈ (l.foldl initKey m).map Prod.snd, v = [] := by
  induction l generalizing m with
  | nil => exact h
  | cons b rest ih => exact ih _ (vals_initKey m b h)

theorem flatten_pushTask (m : AMap) (k t) (h : k ∈ m.map Prod.fst) :
    ((pushTask m k t).map Prod.snd).flatten.Perm
      ((m.map Prod.snd).flatten ++ [t]) := by
  induction m with
  | nil => simp at h
  | cons kv rest ih =>
    obtain ⟨k', ts⟩ := kv
    by_cases hk : k' = k
    · subst hk
      have e : pushTask ((k', ts) :: rest) k' t = (k', ts ++ [t]) :: rest := by
        simp [pushTask]
      rw [e]
      simp only [List.map_cons, List.flatten_cons, List.append_assoc]
      exact List.Perm.append_left ts List.perm_append_comm
    · simp only [List.map_cons, List.mem_cons] at h
      have hr : k ∈ rest.map Prod.fst := h.resolve_left (fun he => hk he.symm)
      have e : pushTask ((k', ts) :: rest) k t = (k', ts) :: pushTask rest k t := by
        simp [pushTask, hk]
      rw [e]
      simp only [List.map_cons, List.flatten_cons, List.append_assoc]
      exact List.Perm.append_left ts (ih hr)

theorem flatten_foldl_pushTask (agents : List String)
    (l : List (Nat × String)) (m : AMap)
    (h : ∀ it ∈ l, agentAt agents it.1 ∈ m.map Prod.fst) :
    ((l.foldl (fun m it => pushTask m (agentAt agents it.1) it.2) m).map
        Prod.snd).flatten.Perm
      ((m.map Prod.snd).flatten ++ l.map Prod.snd) := by
  induction l generalizing m with
  | nil => simp
  | cons it rest ih =>
    obtain ⟨i, t⟩ := it
    simp only [List.foldl_cons]
    have hmem : agentAt agents i ∈ m.map Prod.fst :=
      h (i, t) (List.mem_cons_self _ _)
    have hrest : ∀ it ∈ rest, agentAt agents it.1 ∈
        (pushTask m (agentAt agents i) t).map Prod.fst := by
      intro it hit
      rw [keys_pushTask]
      exact h it (List.mem_cons_of_mem _ hit)
    refine (ih _ hrest).trans ?_
    refine ((flatten_pushTask m _ t hmem).append_right _).trans ?_
    simp [List.append_assoc]

/-- No task is lost and none duplicated: the tasks across all workers are a
permutation of the plan's tasks. -/
theorem assignTasks_flatten_perm (tasks agents : List String) (h : agents ≠ []) :
    ((assignTasks tasks agents).map Prod.snd).flatten.Perm tasks := by
  unfold assignTasks
  have hmem : ∀ it ∈ tasks.enum,
      agentAt agents it.1 ∈ (agents.foldl initKey []).map Prod.fst := by
    intro it _
    rw [mem_keys_foldl_initKey]
    exact Or.inl (agentAt_mem h it.1)
  refine (flatten_foldl_pushTask agents tasks.enum _ hmem).trans ?_
  have hnil : ((agents.foldl initKey []).map Prod.snd).flatten = [] := by
    rw [List.flatten_eq_nil_iff]
    exact vals_foldl_initKey agents [] (by simp)
  rw [hnil, List.nil_append, List.enum_map_snd]

/-! ### Round-robin fairness: counting residue classes in `range N` -/

theorem div_mul_add_mod (N M : Nat) : N / M * M + N % M = N := by
  rw [Nat.mul_comm]
  exact Nat.div_add_mod N M

theorem succ_div_mod_of_lt {M N : Nat} (hM : 0 < M) (h : N % M + 1 < M) :
    (N + 1) / M = N / M ∧ (N + 1) % M = N % M + 1 := by
  have hqr := div_mul_add_mod N M
  have h1 : N + 1 = (N % M + 1) + (N / M) * M := by omega
  refine ⟨?_, ?_⟩
  · rw [h1, Nat.add_mul_div_right _ _ hM, Nat.div_eq_of_lt h, Nat.zero_add]
  · rw [h1, Nat.add_mul_mod_self_right, Nat.mod_eq_of_lt h]

theorem succ_div_mod_of_eq {M N : Nat} (hM : 0 < M) (h : N % M + 1 = M) :
    (N + 1) / M = N / M + 1 ∧ (N + 1) % M = 0 := by
  have hqr := div_mul_add_mod N M
  have h1 : N + 1 = (N / M + 1) * M := by
    rw [Nat.succ_mul]
    omega
  refine ⟨?_, ?_⟩
  · rw [h1, Nat.mul_div_cancel _ hM]
  · rw [h1, Nat.mul_mod_left]

/-- Number of round-robin slots worker index `j` receives out of `N` tasks. -/
def slotCount (N M j : Nat) : Nat :=
  N / M + if j < N % M then 1 else 0

/-- The indices `< N` that round-robin maps to worker `j` are exactly
`j, j + M, j + 2M, …`, `slotCount N M j` of them. -/
theorem range_filter_mod (M j : Nat) (hM : 0 < M) (hj : j < M) (N : Nat) :
    (List.range N).filter (fun i => i % M == j)
      = (List.range (slotCount N M j)).map (fun q => q * M + j) := by
  induction N with
  | zero =>
    simp [slotCount, Nat.zero_div, Nat.zero_mod]
  | succ N ih =>
    have hqr := div_mul_add_mod N M
    have hr : N % M < M := Nat.mod_lt _ hM
    rw [List.range_succ, List.filter_append, ih]
    by_cases hjr : N % M = j
    · -- task index `N` goes to worker `j`
      have hj' : (N % M == j) = true := by simp [hjr]
      have hcount : slotCount (N + 1) M j = slotCount N M j + 1 := by
        unfold slotCount
        by_cases hcase : N % M + 1 < M
        · obtain ⟨hd, hm⟩ := succ_div_mod_of_lt hM hcase
          rw [hd, hm]
          rw [if_pos (show j < N % M + 1 by omega),
            if_neg (show ¬ j < N % M by omega)]
        · obtain ⟨hd, hm⟩ := succ_div_mod_of_eq (N := N) hM (by omega)
          rw [hd, hm]
          rw [if_neg (show ¬ j < 0 by omega),
            if_neg (show ¬ j < N % M by omega)]
      have hN : slotCount N M j * M + j = N := by
        unfold slotCount
        rw [if_neg (by omega), Nat.add_zero]
        omega
      rw [hcount, List.range_succ, List.map_append]
      simp [hj', hN]
    · have hj' : (N % M == j) = false := by simp [hjr]
      have hcount : slotCount (N + 1) M j = slotCount N M j := by
        unfold slotCount
        by_cases hcase : N % M + 1 < M
        · obtain ⟨hd, hm⟩ := succ_div_mod_of_lt hM hcase
          rw [hd, hm]
          by_cases hjN : j < N % M
          · rw [if_pos (show j < N % M + 1 by omega), if_pos hjN]
          · rw [if_neg (show ¬ j < N % M + 1 by omega), if_neg hjN]
        · obtain ⟨hd, hm⟩ := succ_div_mod_of_eq (N := N) hM (by omega)
          rw [hd, hm]
          rw [if_neg (show ¬ j < 0 by omega),
            if_pos (show j < N % M by omega)]
      rw [hcount]
      simp [hj']

/-- Filtering an enumerated list on the index and projecting the values is
filtering the index range and reading the list. -/
theorem enum_filter_map_snd (p : Nat → Bool) (d : String) (l : List String) :
    (l.enum.filter (fun it => p it.1)).map Prod.snd
      = ((List.range l.length).filter p).map (fun i => l.getD i d) := by
  induction l using List.reverseRecOn with
  | nil => simp
  | append_singleton l t ih =>
    have henum : (l ++ [t]).enum = l.enum ++ [(l.length, t)] := by
      rw [List.enum_append]
      rfl
    rw [henum, List.filter_append, List.map_append, ih,
      List.length_append, List.length_singleton, List.range_succ,
      List.filter_append, List.map_append]
    congr 1
    · apply List.map_congr_left
      intro i hi
      have hilt : i < l.length := by
        have := List.mem_range.mp (List.mem_filter.mp hi).1
        exact this
      exact (List.getD_append _ _ _ _ hilt).symm
    · by_cases hp : p l.length
      · have hlen : l.length < (l ++ [t]).length := by simp
        simp only [List.filter_cons, List.filter_nil, hp, if_pos trivial,
          List.map_cons, List.map_nil]
        rw [List.getD_eq_getElem _ _ hlen, List.getElem_concat_length l t _ rfl]
      · simp only [List.filter_cons, List.filter_nil, hp]
        simp [hp]

/-- Worker `j`'s assigned list, for distinct agents: the sub-list of tasks at
indices `j, j + M, j + 2M, …`. -/
theorem workerTasks_eq_slots (tasks agents : List String) (hne : agents ≠ [])
    (hnd : agents.Nodup) (j : Nat) (hj : j < agents.length) :
    workerTasks tasks agents (agents.getD j "")
      = (List.range (slotCount tasks.length agents.length j)).map
          (fun q => tasks.getD (q * agents.length + j) "") := by
  have hM : 0 < agents.length := List.length_pos.mpr hne
  have hpred : ∀ it ∈ tasks.enum,
      (agentAt agents it.1 == agents.getD j "")
        = (it.1 % agents.length == j) := by
    intro it _
    have hlt : it.1 % agents.length < agents.length := Nat.mod_lt _ hM
    rw [agentAt, List.getD_eq_getElem _ _ hlt, List.getD_eq_getElem _ _ hj]
    by_cases h : it.1 % agents.length = j
    · simp [h]
    · have hne2 : agents[it.1 % agents.length] ≠ agents[j] := by
        intro he
        apply h
        have hfin : (⟨it.1 % agents.length, hlt⟩ : Fin agents.length)
            = ⟨j, hj⟩ := by
          apply hnd.get_inj_iff.mp
          rw [List.get_eq_getElem, List.get_eq_getElem]
          exact he
        exact congrArg Fin.val hfin
      simp [h, hne2]
  have hmem : agents.getD j "" ∈ agents := by
    rw [List.getD_eq_getElem _ _ hj]
    exact List.getElem_mem hj
  unfold workerTasks
  rw [assignTasks_lookup, if_pos hmem, Option.getD_some,
    List.filter_congr hpred,
    enum_filter_map_snd (fun i => i % agents.length == j) "" tasks,
    range_filter_mod agents.length j hM hj, List.map_map]
  rfl

/-! ## Claim theorems for the assignment engine -/

/-- C1: for every task list and every non-empty list of available workers,
`_assignTasks` places task `i` in the list of worker
`available[i mod |available|]`, within each worker's list the tasks keep the
plan's relative order (each worker's list is a sub-list of the plan), and on
tasks `["A","B","C","D","E"]` with workers `["w1","w2"]` the assignment is
`w1:["A","C","E"], w2:["B","D"]`. -/
theorem C1_round_robin_assignment (tasks agents : List String)
    (h : agents ≠ []) :
    (∀ i, i < tasks.length →
        tasks.getD i "" ∈ workerTasks tasks agents (agentAt agents i))
  ∧ (∀ a : String, (workerTasks tasks agents a).Sublist tasks)
  ∧ assignTasks ["A", "B", "C", "D", "E"] ["w1", "w2"]
      = [("w1", ["A", "C", "E"]), ("w2", ["B", "D"])] := by
  refine ⟨?_, ?_, ?_⟩
  · intro i hi
    unfold workerTasks
    rw [assignTasks_lookup, if_pos (agentAt_mem h i), Option.getD_some,
      enum_filter_map_snd (fun n => agentAt agents n == agentAt agents i) ""]
    apply List.mem_map_of_mem
    apply List.mem_filter.mpr
    exact ⟨List.mem_range.mpr hi, by simp⟩
  · intro a
    unfold workerTasks
    rw [assignTasks_lookup]
    by_cases hm : a ∈ agents
    · rw [if_pos hm, Option.getD_some]
      have h1 : (tasks.enum.filter
          (fun it => agentAt agents it.1 == a)).Sublist tasks.enum :=
        List.filter_sublist _
      have h2 := h1.map Prod.snd
      rwa [List.enum_map_snd] at h2
    · rw [if_neg hm]
      exact List.nil_sublist tasks
  · decide

/-- Witness for C1 at the concrete scenario from the spec. -/
theorem C1_round_robin_assignment_witness :
    assignTasks ["A", "B", "C", "D", "E"] ["w1", "w2"]
      = [("w1", ["A", "C", "E"]), ("w2", ["B", "D"])] :=
  (C1_round_robin_assignment ["A", "B", "C", "D", "E"] ["w1", "w2"]
    (by decide)).2.2

/-- C2: for `N` tasks and `M ≥ 1` distinct available workers, each worker
receives `⌊N/M⌋` or `⌈N/M⌉` tasks, the assigned tasks across all workers are
a permutation of the plan's tasks (none lost, none duplicated), and
round-robin interleaving over the workers' lists reconstructs the plan:
task `k` sits at position `k / M` of worker `k % M`'s list. -/
theorem C2_fairness_conservation_interleave (tasks agents : List String)
    (hne : agents ≠ []) (hnd : agents.Nodup) :
    (∀ a ∈ agents,
        (workerTasks tasks agents a).length
            = tasks.length / agents.length ∨
        (workerTasks tasks agents a).length
            = (tasks.length + agents.length - 1) / agents.length)
  ∧ ((assignTasks tasks agents).map Prod.snd).flatten.Perm tasks
  ∧ (∀ k, k < tasks.length →
        (workerTasks tasks agents
            (agents.getD (k % agents.length) "")).getD (k / agents.length) ""
          = tasks.getD k "") := by
  have hM : 0 < agents.length := List.length_pos.mpr hne
  refine ⟨?_, assignTasks_flatten_perm tasks agents hne, ?_⟩
  · intro a ha
    obtain ⟨⟨j, hj⟩, rfl⟩ := List.mem_iff_get.mp ha
    have hgd : agents.get ⟨j, hj⟩ = agents.getD j "" := by
      rw [List.getD_eq_getElem _ _ hj, List.get_eq_getElem]
    rw [hgd, workerTasks_eq_slots tasks agents hne hnd j hj,
      List.length_map, List.length_range]
    unfold slotCount
    by_cases hcase : j < tasks.length % agents.length
    · right
      rw [if_pos hcase]
      have hqr := div_mul_add_mod tasks.length agents.length
      have hr : tasks.length % agents.length < agents.length :=
        Nat.mod_lt _ hM
      have h1 : tasks.length + agents.length - 1
          = (tasks.length % agents.length - 1)
            + (tasks.length / agents.length + 1) * agents.length := by
        rw [Nat.succ_mul]
        omega
      have h2 : (tasks.length % agents.length - 1) / agents.length = 0 :=
        Nat.div_eq_of_lt (by omega)
      rw [h1, Nat.add_mul_div_right _ _ hM, h2, Nat.zero_add]
    · left
      rw [if_neg hcase]
      omega
  · intro k hk
    have hj : k % agents.length < agents.length := Nat.mod_lt _ hM
    rw [workerTasks_eq_slots tasks agents hne hnd _ hj]
    have hqrN := div_mul_add_mod tasks.length agents.length
    have hqrk := div_mul_add_mod k agents.length
    have hrN : tasks.length % agents.length < agents.length := Nat.mod_lt _ hM
    have hcnt : k / agents.length
        < slotCount tasks.length agents.length (k % agents.length) := by
      unfold slotCount
      by_cases hcase :
          k % agents.length < tasks.length % agents.length
      · rw [if_pos hcase]
        by_contra hq
        push_neg at hq
        have hmul := Nat.mul_le_mul_right agents.length hq
        rw [Nat.succ_mul] at hmul
        omega
      · rw [if_neg hcase, Nat.add_zero]
        by_contra hq
        push_neg at hq
        have hmul := Nat.mul_le_mul_right agents.length hq
        omega
    have hlen : k / agents.length
        < ((List.range (slotCount tasks.length agents.length
            (k % agents.length))).map
            (fun q => tasks.getD (q * agents.length + k % agents.length)
              "")).length := by
      rw [List.length_map, List.length_range]
      exact hcnt
    rw [List.getD_eq_getElem _ _ hlen, List.getElem_map, List.getElem_range,
      hqrk]

/-- Witness for C2 at the concrete scenario from the spec. -/
theorem C2_fairness_conservation_interleave_witness :
    ((assignTasks ["A", "B", "C", "D", "E"] ["w1", "w2"]).map
        Prod.snd).flatten.Perm ["A", "B", "C", "D", "E"] :=
  (C2_fairness_conservation_interleave ["A", "B", "C", "D", "E"]
    ["w1", "w2"] (by decide) (by decide)).2.1

/-! ## Task extraction (`Planner._extractTasks`)

```js
_extractTasks(planMd) {
  const tasks = [];
  for (const line of planMd.split('\n')) {
    const m = line.match(/[-*]\s*\[[ x]\]\s*(.+)/i);
    if (m) tasks.push(m[1].trim());
  }
  return tasks;
}
```

The regular expression is embedded at character level with JavaScript
semantics: `\s` is the ECMAScript whitespace class, `.` excludes line
terminators, matching is leftmost with greedy `\s*` backtracking before the
capture `(.+)`, and `trim()` strips the same whitespace class.
-/

/-- ECMAScript `\s` (WhiteSpace ∪ LineTerminator), also the `trim()` set. -/
def isWs (c : Char) : Bool :=
  c = ' ' || c = '\t' || c = '\n' || c = '\x0b' || c = '\x0c' || c = '\r' ||
  c = ' ' || c = ' ' || (' ' ≤ c && c ≤ ' ') ||
  c = ' ' || c = ' ' || c = ' ' || c = ' ' ||
  c = '　' || c = '﻿'

/-- ECMAScript LineTerminator: the characters `.` does not match. -/
def isLineTerm (c : Char) : Bool :=
  c = '\r' || c = '\n' || c = ' ' || c = ' '

/-- Characters matched by `[ x]` under the `i` flag. -/
def isBox (c : Char) : Bool :=
  c = ' ' || c = 'x' || c = 'X'

/-- Greedy `(.+)` at the current position: at least one non-terminator
character, extended maximally (nothing follows the group in the pattern). -/
def matchDotPlus (s : List Char) : Option (List Char) :=
  match s with
  | [] => none
  | c :: rest =>
    if isLineTerm c then none
    else some (c :: rest.takeWhile (fun d => !isLineTerm d))

/-- Greedy `\s*` before `(.+)`: try consuming `k` characters first, then
backtrack one character at a time. Called with `k` = the maximal whitespace
prefix length, so every tried prefix is whitespace. -/
def tryBacktrack (s : List Char) : Nat → Option (List Char)
  | 0 => matchDotPlus s
  | k + 1 =>
    match matchDotPlus (s.drop (k + 1)) with
    | some cap => some cap
    | none => tryBacktrack s k

/-- The `\[[ x]\]\s*(.+)` suffix of the pattern, after `\s*` has consumed
the maximal whitespace run (no backtracking is possible there: a shorter
whitespace run would leave a whitespace character where `[` is required). -/
def matchAfterMarker (s : List Char) : Option (List Char) :=
  match s with
  | lb :: b :: rb :: tail =>
    if lb = '[' ∧ rb = ']' ∧ isBox b = true then
      tryBacktrack tail (tail.takeWhile isWs).length
    else none
  | _ => none

/-- Attempt the whole pattern `[-*]\s*\[[ x]\]\s*(.+)` anchored at the start
of `s`, returning the capture. -/
def matchCheckboxAt (s : List Char) : Option (List Char) :=
  match s with
  | [] => none
  | c :: rest =>
    if c = '-' ∨ c = '*' then matchAfterMarker (rest.dropWhile isWs)
    else none

/-- `line.match(re)`: leftmost match — try each start position in order. -/
def findMatch : List Char → Option (List Char)
  | [] => none
  | c :: rest =>
    match matchCheckboxAt (c :: rest) with
    | some cap => some cap
    | none => findMatch rest

/-- `String.prototype.trim()`. -/
def jsTrim (s : List Char) : List Char :=
  ((s.dropWhile isWs).reverse.dropWhile isWs).reverse

/-- `planMd.split('\n')` (ECMAScript split: `"" ↦ [""]`, separators keep
empty segments). -/
def splitOnNl : List Char → List (List Char)
  | [] => [[]]
  | c :: rest =>
    if c = '\n' then [] :: splitOnNl rest
    else
      match splitOnNl rest with
      | l :: ls => (c :: l) :: ls
      | [] => [[c]]

/-- `Planner._extractTasks` over a character list. -/
def extractTasks (s : List Char) : List (List Char) :=
  (splitOnNl s).filterMap (fun line => (findMatch line).map jsTrim)

/-- `Planner._extractTasks` over Lean strings. -/
def extractTasksStr (s : String) : List String :=
  (extractTasks s.data).map List.asString

/-! ### Extraction lemmas -/

theorem dropWhile_append_all {p : Char → Bool} {l₁ : List Char}
    (l₂ : List Char) (h : ∀ c ∈ l₁, p c = true) :
    (l₁ ++ l₂).dropWhile p = l₂.dropWhile p := by
  induction l₁ with
  | nil => rfl
  | cons c rest ih =>
    rw [List.cons_append, List.dropWhile_cons,
      if_pos (h c (List.mem_cons_self _ _))]
    exact ih (fun c hc => h c (List.mem_cons_of_mem _ hc))

theorem takeWhile_append_all {p : Char → Bool} {l₁ : List Char}
    (l₂ : List Char) (h : ∀ c ∈ l₁, p c = true) :
    (l₁ ++ l₂).takeWhile p = l₁ ++ l₂.takeWhile p := by
  induction l₁ with
  | nil => rfl
  | cons c rest ih =>
    rw [List.cons_append, List.takeWhile_cons,
      if_pos (h c (List.mem_cons_self _ _)), ih
      (fun c hc => h c (List.mem_cons_of_mem _ hc)), List.cons_append]

theorem takeWhile_all {p : Char → Bool} {l : List Char}
    (h : ∀ c ∈ l, p c = true) : l.takeWhile p = l := by
  induction l with
  | nil => rfl
  | cons c rest ih =>
    rw [List.takeWhile_cons, if_pos (h c (List.mem_cons_self _ _)),
      ih (fun c hc => h c (List.mem_cons_of_mem _ hc))]

theorem matchDotPlus_all_plain {d1 : Char} {dr : List Char}
    (h : ∀ c ∈ d1 :: dr, isLineTerm c = false) :
    matchDotPlus (d1 :: dr) = some (d1 :: dr) := by
  rw [matchDotPlus, if_neg (by simp [h d1 (List.mem_cons_self _ _)])]
  congr 1
  rw [List.cons.injEq]
  refine ⟨rfl, takeWhile_all ?_⟩
  intro c hc
  simp [h c (List.mem_cons_of_mem _ hc)]

theorem tryBacktrack_ws_prefix {w2 dr : List Char} {d1 : Char}
    (hw2 : ∀ c ∈ w2, isWs c = true)
    (hdterm : ∀ c ∈ d1 :: dr, isLineTerm c = false) :
    tryBacktrack (w2 ++ d1 :: dr) w2.length = some (d1 :: dr) := by
  cases w2 with
  | nil =>
    rw [List.length_nil, List.nil_append, tryBacktrack]
    exact matchDotPlus_all_plain hdterm
  | cons w ws =>
    have hdrop : ((w :: ws) ++ d1 :: dr).drop (ws.length + 1) = d1 :: dr := by
      have h := List.drop_left (w :: ws) (d1 :: dr)
      rwa [List.length_cons] at h
    rw [List.length_cons, tryBacktrack, hdrop,
      matchDotPlus_all_plain hdterm]

/-- A canonical checkbox line `-`/`*`, whitespace, `[ ]`/`[x]`/`[X]`,
whitespace, then a plain description: the match captures exactly the
description. -/
theorem findMatch_checkbox_line (m b d1 : Char) (w1 w2 dr : List Char)
    (hm : m = '-' ∨ m = '*') (hw1 : ∀ c ∈ w1, isWs c = true)
    (hb : isBox b = true) (hw2 : ∀ c ∈ w2, isWs c = true)
    (hd1 : isWs d1 = false)
    (hdterm : ∀ c ∈ d1 :: dr, isLineTerm c = false) :
    findMatch (m :: (w1 ++ '[' :: b :: ']' :: (w2 ++ d1 :: dr)))
      = some (d1 :: dr) := by
  have hdrop : (w1 ++ '[' :: b :: ']' :: (w2 ++ d1 :: dr)).dropWhile isWs
      = '[' :: b :: ']' :: (w2 ++ d1 :: dr) := by
    rw [dropWhile_append_all _ hw1, List.dropWhile_cons,
      if_neg (by decide)]
  have htake : ((w2 ++ d1 :: dr).takeWhile isWs) = w2 := by
    rw [takeWhile_append_all _ hw2, List.takeWhile_cons, if_neg (by simp [hd1])]
    simp
  have hmatch : matchCheckboxAt
      (m :: (w1 ++ '[' :: b :: ']' :: (w2 ++ d1 :: dr)))
      = some (d1 :: dr) := by
    rw [matchCheckboxAt]
    rw [if_pos hm, hdrop, matchAfterMarker]
    rw [if_pos ⟨rfl, rfl, hb⟩, htake]
    exact tryBacktrack_ws_prefix hw2 hdterm
  rw [findMatch, hmatch]

theorem splitOnNl_no_nl {l : List Char} (h : '\n' ∉ l) :
    splitOnNl l = [l] := by
  induction l with
  | nil => rfl
  | cons c rest ih =>
    have hc : c ≠ '\n' := fun he => h (he ▸ List.mem_cons_self _ _)
    rw [splitOnNl, if_neg hc, ih (fun hm => h (List.mem_cons_of_mem _ hm))]

theorem splitOnNl_append {l : List Char} (rest : List Char)
    (h : '\n' ∉ l) :
    splitOnNl (l ++ '\n' :: rest) = l :: splitOnNl rest := by
  induction l with
  | nil =>
    rw [List.nil_append, splitOnNl, if_pos rfl]
  | cons c t ih =>
    have hc : c ≠ '\n' := fun he => h (he ▸ List.mem_cons_self _ _)
    rw [List.cons_append, splitOnNl, if_neg hc,
      ih (fun hm => h (List.mem_cons_of_mem _ hm))]

/-- `split('\n')` inverts joining lines with `'\n'`. -/
theorem splitOnNl_intercalate : ∀ lines : List (List Char), lines ≠ [] →
    (∀ l ∈ lines, '\n' ∉ l) →
    splitOnNl (List.intercalate ['\n'] lines) = lines := by
  intro lines
  induction lines with
  | nil => exact fun hne _ => absurd rfl hne
  | cons l rest ih =>
    intro _ hnl
    cases rest with
    | nil =>
      have h1 : List.intercalate ['\n'] [l] = l := by
        simp [List.intercalate, List.intersperse]
      rw [h1, splitOnNl_no_nl (hnl l (List.mem_cons_self _ _))]
    | cons l' rest' =>
      have h1 : List.intercalate ['\n'] (l :: l' :: rest')
          = l ++ '\n' :: List.intercalate ['\n'] (l' :: rest') := by
        simp [List.intercalate, List.intersperse]
      rw [h1, splitOnNl_append _ (hnl l (List.mem_cons_self _ _)),
        ih (by simp) (fun x hx => hnl x (List.mem_cons_of_mem _ hx))]

/-- C3: task extraction scans line by line, keeps exactly the lines whose
checkbox pattern matches (in line order), captures the trailing description
and trims it; a canonical checkbox line captures exactly its description;
and the concrete plan text from the spec yields
`["build login","write tests","deploy"]`. -/
theorem C3_checkbox_extraction :
    (∀ lines : List (List Char), lines ≠ [] → (∀ l ∈ lines, '\n' ∉ l) →
        extractTasks (List.intercalate ['\n'] lines)
          = lines.filterMap (fun line => (findMatch line).map jsTrim))
  ∧ (∀ (m b d1 : Char) (w1 w2 dr : List Char),
        m = '-' ∨ m = '*' → (∀ c ∈ w1, isWs c = true) → isBox b = true →
        (∀ c ∈ w2, isWs c = true) → isWs d1 = false →
        (∀ c ∈ d1 :: dr, isLineTerm c = false) →
        findMatch (m :: (w1 ++ '[' :: b :: ']' :: (w2 ++ d1 :: dr)))
          = some (d1 :: dr))
  ∧ extractTasksStr
      "- [ ] build login\n- [x] write tests\nnotes here\n- [ ] deploy"
      = ["build login", "write tests", "deploy"] := by
  refine ⟨?_, findMatch_checkbox_line, ?_⟩
  · intro lines hne hnl
    unfold extractTasks
    rw [splitOnNl_intercalate lines hne hnl]
  · decide

/-- Witness for C3: a concrete canonical checkbox line. -/
theorem C3_checkbox_extraction_witness :
    findMatch ['-', '[', 'x', ']', ' ', 'a', 'b'] = some ['a', 'b'] :=
  C3_checkbox_extraction.2.1 '-' 'x' 'a' [] [' '] ['b'] (Or.inl rfl)
    (by decide) (by decide) (by decide) (by decide) (by decide)

/-! ## Plan artifact adapter: plan readers (`planner.js`)

`_readGSDPlan` and `_readQuickPlan` read a small fixed set of documents.
The filesystem is passed in explicitly: `fileContent p = some c` models
`pathExists(p)` true with `readFile(p) = c`, `none` models a missing file.
-/

/-- The Plan object `{ type, phase, tasks, files }` built by the readers. -/
structure Plan where
  ptype : String
  phase : Option Nat
  tasks : List String
  files : List (String × String)
deriving DecidableEq

/-- `path.join` for the two-segment joins the planner performs. -/
def pjoin (a b : String) : String := a ++ "/" ++ b

/-- `String(phase).padStart(2, '0')`. -/
def pad2 (n : Nat) : String :=
  if n < 10 then "0" ++ toString n else toString n

/-- The fixed artifact set `_readGSDPlan` scans. -/
def gsdNames : List String :=
  ["PLAN.md", "REQUIREMENTS.md", "ROADMAP.md", "CONTEXT.md", "RESEARCH.md"]

/-- `phase ? path.join(planDir, 'phase-NN') : planDir` — note `0` is falsy
in JavaScript, so phase 0 falls back to the project directory. -/
def gsdBase (workspace : String) (phase : Option Nat) : String :=
  let planDir := pjoin workspace ".planning"
  match phase with
  | some p => if p ≠ 0 then pjoin planDir ("phase-" ++ pad2 p) else planDir
  | none => planDir

/-- `Planner._readGSDPlan`: collect the artifacts that exist, extract tasks
from `PLAN.md`, and return `plan.tasks.length ? plan : null`. -/
def readGSDPlan (workspace : String) (phase : Option Nat)
    (fileContent : String → Option String) : Option Plan :=
  let base := gsdBase workspace phase
  let files := gsdNames.filterMap
    (fun n => (fileContent (pjoin base n)).map (fun c => (n, c)))
  let tasks := match List.lookup "PLAN.md" files with
    | some c => extractTasksStr c
    | none => []
  let ptype := match phase with
    | some p => if p ≠ 0 then "phase" else "project"
    | none => "project"
  let plan : Plan := ⟨ptype, phase, tasks, files⟩
  if plan.tasks.length ≠ 0 then some plan else none

/-- Stable insertion of a string into a sorted list (`≤` lexicographic). -/
def insertSorted (x : String) : List String → List String
  | [] => [x]
  | y :: ys => if x ≤ y then x :: y :: ys else y :: insertSorted x ys

/-- `subdirs.sort()` — ECMAScript default sort on strings. -/
def sortJS (l : List String) : List String := l.foldr insertSorted []

/-- `Planner._readQuickPlan`: pick the lexicographically last quick subdir,
read its `PLAN.md`, and build a quick Plan.  Unlike `_readGSDPlan`, there is
no `tasks.length` guard: a `PLAN.md` with zero checkbox lines still yields a
(zero-task) Plan object. -/
def readQuickPlan (workspace : String) (quickDirExists : Bool)
    (subdirs : List String) (fileContent : String → Option String) :
    Option Plan :=
  if quickDirExists = false then none
  else
    let quickDir := pjoin (pjoin workspace ".planning") "quick"
    match (sortJS subdirs).getLast? with
    | none => none
    | some latest =>
      if latest = "" then none
      else
        match fileContent (pjoin (pjoin quickDir latest) "PLAN.md") with
        | none => none
        | some content =>
          some ⟨"quick", none, extractTasksStr content,
            [("PLAN.md", content)]⟩

/-- `Session.dispatch` (`project_init`/`new_task` arm): the plans handed to
`Distributor.run` — `if (plan) { await dist.run(plan); }`. -/
def plansDistributed (plannerResult : Option Plan) : List Plan :=
  match plannerResult with
  | some plan => [plan]
  | none => []

/-- A quick-plan directory whose latest `PLAN.md` holds no checkbox line. -/
def c4QuickFiles : String → Option String := fun p =>
  if p = "/ws/.planning/quick/001-demo/PLAN.md" then
    some "notes only, nothing actionable"
  else none

/-- A project plan directory whose `PLAN.md` holds one checkbox line. -/
def c4GsdFiles : String → Option String := fun p =>
  if p = "/ws/.planning/PLAN.md" then some "- [ ] a" else none

/-- C4 counterexample: `_readQuickPlan` returns a non-null Plan with an
empty extracted task list, and `dispatch` hands that zero-task plan to the
distribution engine — the claimed `empty ⇒ null, never distributed`
invariant fails on the quick-plan path. -/
theorem C4_counterexample :
    (readQuickPlan "/ws" true ["001-demo"] c4QuickFiles).isSome = true
  ∧ ((readQuickPlan "/ws" true ["001-demo"] c4QuickFiles).getD
      ⟨"", none, [], []⟩).tasks = []
  ∧ plansDistributed (readQuickPlan "/ws" true ["001-demo"] c4QuickFiles)
      ≠ [] := by
  decide

/-- C4 amended: project/phase plan reads (`_readGSDPlan`) return `null` on
an empty extracted task list, so no zero-task GSD plan is ever distributed;
`_readQuickPlan`, however, returns a Plan object even when extraction is
empty (exhibited concretely), and such a plan is distributed. -/
theorem C4_empty_plan_handling :
    (∀ (workspace : String) (phase : Option Nat)
        (fc : String → Option String) (p : Plan),
        p ∈ plansDistributed (readGSDPlan workspace phase fc) →
        p.tasks ≠ [])
  ∧ readQuickPlan "/ws" true ["001-demo"] c4QuickFiles
      = some ⟨"quick", none, [],
          [("PLAN.md", "notes only, nothing actionable")]⟩ := by
  constructor
  · intro ws phase fc p hp
    simp only [readGSDPlan] at hp
    split at hp
    · next h0 =>
      simp only [plansDistributed, List.mem_singleton] at hp
      subst hp
      exact fun hnil => h0 (by rw [List.length_eq_zero]; exact hnil)
    · simp [plansDistributed] at hp
  · decide

/-- Witness for the amended C4: a GSD plan that is distributed has a
non-empty task list, at a concrete filesystem. -/
theorem C4_empty_plan_handling_witness :
    (⟨"project", none, ["a"], [("PLAN.md", "- [ ] a")]⟩ : Plan).tasks
      ≠ [] :=
  C4_empty_plan_handling.1 "/ws" none c4GsdFiles
    ⟨"project", none, ["a"], [("PLAN.md", "- [ ] a")]⟩ (by decide)

/-! ## Session state machine (`Session._loadOrInitState`)

```js
async _loadOrInitState() {
  if (await fs.pathExists(this.stateFile)) {
    const prev = await fs.readJson(this.stateFile);
    if (prev.status !== 'ended') {
      log.warn(`Resuming unfinished session: ${prev.id}`);
      this.id = prev.id;
    }
  }
  await this._saveState({ status: 'active', startedAt: ... });
}
```

`readJson` rejects on an unreadable/malformed document, and neither
`_loadOrInitState` nor `Session.start` catches, so the exception
propagates (modelled as `Except.error`).
-/

/-- The fields of the persisted session document the resume logic reads. -/
structure SessionDoc where
  id : String
  status : String
deriving DecidableEq

/-- Outcome of `pathExists` + `readJson` on the session-state document. -/
inductive StateRead where
  | missing
  | corrupt
  | doc (d : SessionDoc)
deriving DecidableEq

/-- `Session._loadOrInitState`, reduced to the session identifier it leaves
in `this.id` (`freshId` is the `uuid()` generated in the constructor). -/
def loadOrInitId (read : StateRead) (freshId : String) :
    Except Unit String :=
  match read with
  | .missing => .ok freshId
  | .corrupt => .error ()
  | .doc prev => .ok (if prev.status ≠ "ended" then prev.id else freshId)

/-- C5: on start, a persisted document with status ≠ `ended` makes the
session reuse the persisted identifier; status `ended` or no document
yields the freshly generated identifier. -/
theorem C5_idempotent_resume (prev : SessionDoc) (freshId : String) :
    loadOrInitId (StateRead.doc prev) freshId
        = .ok (if prev.status = "ended" then freshId else prev.id)
  ∧ loadOrInitId StateRead.missing freshId = .ok freshId := by
  constructor
  · rw [loadOrInitId]
    by_cases h : prev.status = "ended" <;> simp [h]
  · rfl

/-- C9 counterexample: an unreadable/malformed session document does not
produce a fresh session — the `readJson` exception propagates uncaught out
of `_loadOrInitState`, so startup fails instead. -/
theorem C9_counterexample :
    loadOrInitId StateRead.corrupt "fresh-id" = .error ()
  ∧ loadOrInitId StateRead.corrupt "fresh-id" ≠ .ok "fresh-id" := by
  refine ⟨rfl, ?_⟩
  intro h
  exact Except.noConfusion h

/-- C9 amended: a missing session document is treated as no prior session
(fresh identifier, startup continues), but an unreadable/malformed document
is fatal to startup: the read error propagates with no catch. -/
theorem C9_state_corruption (freshId : String) :
    loadOrInitId StateRead.missing freshId = .ok freshId
  ∧ loadOrInitId StateRead.corrupt freshId = .error () :=
  ⟨rfl, rfl⟩

/-! ## Agent process supervisor and distribution pipeline (`distributor.js`)

External effects are traced in a `World`: workspace files (association
list, newest entry first), tmux windows created, commands sent with
`send-keys`, agents provisioned with Superpowers, and log lines.  tmux
window creation for an agent may fail (`execa` throws); the JavaScript has
no catch around `_launchAgentPane`, so the model uses `Except World World`
with the world at the point of failure. -/

/-- One entry of the `AGENTS` registry. -/
structure AgentInfo where
  bin : String
  superpowersDir : String
  args : List String
deriving DecidableEq

/-- The agent registry from `distributor.js`. -/
def AGENTS : List (String × AgentInfo) :=
  [("gemini", ⟨"gemini", "~/.gemini", []⟩),
   ("copilot", ⟨"gh", "~/.config/gh-copilot", ["copilot", "suggest"]⟩),
   ("codex", ⟨"codex", "~/.codex", []⟩),
   ("opencode", ⟨"opencode", "~/.config/opencode", []⟩)]

/-- Trace of the distributor's external effects. -/
structure World where
  fs : List (String × String)
  panes : List String
  cmds : List (String × String)
  provisioned : List String
  logs : List String
deriving DecidableEq

/-- Generic association-list lookup helpers over string keys. -/
theorem lookupv_cons_self {β : Type} (a : String) (v : β)
    (l : List (String × β)) : List.lookup a ((a, v) :: l) = some v := by
  simp [List.lookup]

theorem lookupv_cons_ne {β : Type} {a k : String} (v : β)
    (l : List (String × β)) (h : a ≠ k) :
    List.lookup a ((k, v) :: l) = List.lookup a l := by
  have hb : (a == k) = false := by simp [h]
  simp [List.lookup, hb]

/-- `fs.pathExists`. -/
def fsHas (fs : List (String × String)) (p : String) : Bool :=
  (List.lookup p fs).isSome

/-- `fs.readFile` (`none` when the file does not exist). -/
def fsRead (fs : List (String × String)) (p : String) : Option String :=
  List.lookup p fs

/-- `fs.writeFile` (newest entry shadows older ones). -/
def fsWrite (fs : List (String × String)) (p c : String) :
    List (String × String) :=
  (p, c) :: fs

/-- Content `_writePlanArtifacts` gives a fresh `implement.md`. -/
def implementContent (tasks : List String) : String :=
  "# Implementation Tracking\n\n"
    ++ String.intercalate "\n" (tasks.map (fun t => "- [ ] " ++ t)) ++ "\n"

/-- `Distributor._writePlanArtifacts`: write `implement.md` and echo each
plan file, each only `if (!await fs.pathExists(dest))`. -/
def writePlanArtifacts (workspace : String) (plan : Plan)
    (fs : List (String × String)) : List (String × String) :=
  let planDir := pjoin workspace ".planning"
  let implFile := pjoin planDir "implement.md"
  let fs1 := if fsHas fs implFile then fs
    else fsWrite fs implFile (implementContent plan.tasks)
  plan.files.foldl (fun acc nc =>
    let dest := pjoin planDir nc.1
    if fsHas acc dest then acc else fsWrite acc dest nc.2) fs1

/-! ### Write-once frame lemmas -/

theorem fsRead_guardWrite {fs : List (String × String)} {p : String}
    (q c : String) (hp : fsHas fs p = true) :
    fsRead (if fsHas fs q then fs else fsWrite fs q c) p = fsRead fs p := by
  by_cases hq : fsHas fs q = true
  · rw [if_pos hq]
  · rw [if_neg (by simp [hq])]
    have hne : p ≠ q := fun he => hq (he ▸ hp)
    exact lookupv_cons_ne c fs hne

theorem fsHas_guardWrite {fs : List (String × String)} {p : String}
    (q c : String) (hp : fsHas fs p = true) :
    fsHas (if fsHas fs q then fs else fsWrite fs q c) p = true := by
  by_cases hq : fsHas fs q = true
  · rw [if_pos hq]; exact hp
  · rw [if_neg (by simp [hq])]
    have hne : p ≠ q := fun he => hq (he ▸ hp)
    unfold fsHas fsWrite
    rw [lookupv_cons_ne c fs hne]
    exact hp

theorem fsRead_foldl_guardWrite (planDir : String)
    (files : List (String × String)) :
    ∀ (fs : List (String × String)) (p : String), fsHas fs p = true →
    fsRead (files.foldl (fun acc nc =>
        if fsHas acc (pjoin planDir nc.1) then acc
        else fsWrite acc (pjoin planDir nc.1) nc.2) fs) p = fsRead fs p := by
  induction files with
  | nil => intro fs p _; rfl
  | cons nc rest ih =>
    intro fs p hp
    rw [List.foldl_cons]
    rw [ih _ p (fsHas_guardWrite _ _ hp)]
    exact fsRead_guardWrite _ _ hp

/-- C7: `_writePlanArtifacts` never overwrites an existing document — any
file already present (including `implement.md`) keeps its exact content
across a later `writeArtifacts` call with any plan. -/
theorem C7_write_once_artifacts (workspace : String) (plan : Plan)
    (fs : List (String × String)) (p : String) (h : fsHas fs p = true) :
    fsRead (writePlanArtifacts workspace plan fs) p = fsRead fs p := by
  unfold writePlanArtifacts
  rw [fsRead_foldl_guardWrite _ _ _ p (fsHas_guardWrite _ _ h)]
  exact fsRead_guardWrite _ _ h

/-- Witness for C7: an `implement.md` already present with operator content
survives a `writeArtifacts` call with a plan that would write different
content. -/
theorem C7_write_once_artifacts_witness :
    fsRead (writePlanArtifacts "/ws"
        ⟨"project", none, ["x"], [("PLAN.md", "new plan text")]⟩
        [("/ws/.planning/implement.md", "ORIGINAL")])
      "/ws/.planning/implement.md"
    = fsRead [("/ws/.planning/implement.md", "ORIGINAL")]
      "/ws/.planning/implement.md" :=
  C7_write_once_artifacts "/ws"
    ⟨"project", none, ["x"], [("PLAN.md", "new plan text")]⟩
    [("/ws/.planning/implement.md", "ORIGINAL")]
    "/ws/.planning/implement.md" (by decide)

/-! ### Launch command construction -/

/-- `tasks.map((t, i) => `${i + 1}. ${t}`).join('\n')`. -/
def taskListStr (tasks : List String) : String :=
  String.intercalate "\n"
    (tasks.enum.map (fun it => toString (it.1 + 1) ++ ". " ++ it.2))

/-- `Distributor._buildAgentPrompt` (the `plan` argument is unused in the
source as well). -/
def buildAgentPrompt (workspace agentName : String) (tasks : List String)
    (plan : Plan) : String :=
  let taskList := taskListStr tasks
  let planRef := pjoin (pjoin workspace ".planning") "PLAN.md"
  let implRef := pjoin (pjoin workspace ".planning") "implement.md"
  "# Zeroclaw Task Assignment — " ++ agentName
    ++ "\n\nYou are a coding agent in the zeroclaw multi-agent system.\n\n"
    ++ "## Your Tasks\n" ++ taskList
    ++ "\n\n## Context Files\n- Plan:           " ++ planRef
    ++ "\n- Implementation: " ++ implRef
    ++ "\n- Requirements:   "
    ++ pjoin (pjoin workspace ".planning") "REQUIREMENTS.md"
    ++ "\n\n## Working Rules\n- Follow TDD: write tests before implementation\n"
    ++ "- Commit after each task: `git commit -m \"feat(<scope>): <task summary>\"`\n"
    ++ "- Branch: feature/<task-slug>\n- Document decisions in implement.md\n"
    ++ "- Use \\plan to brainstorm, \\skil to look up skills, \\exec to run plans\n"
    ++ "- If you hit an error, document it in .zeroclaw/errors/<agent>-<timestamp>.md\n"
    ++ "  (AgentLightning will pick this up for iterative learning)\n\n"
    ++ "## Superpowers Commands\n"
    ++ "- \\plan  → /superpowers:brainstorm or /superpowers:write-plan\n"
    ++ "- \\skil  → search skills with find-skills tool\n"
    ++ "- \\exec  → /superpowers:execute-plan (parallel subagents)\n"
    ++ "- /gsd:verify-work → run verification after tasks complete\n\n"
    ++ "Begin with task 1. Good luck.\n"

/-- `taskPrompt.replace(/"/g, '\\"')`. -/
def escQuotes (s : String) : String :=
  ⟨s.data.foldr (fun c acc =>
    if c = '"' then '\\' :: '"' :: acc else c :: acc) []⟩

/-- `s.split('\n')[0]`. -/
def firstLine (s : String) : String :=
  ⟨s.data.takeWhile (fun c => c ≠ '\n')⟩

/-- The prompt file `_launchAgentPane` writes for an agent. -/
def promptPath (workspace agentName : String) : String :=
  pjoin (pjoin workspace ".zeroclaw") (agentName ++ "-task.md")

/-- The per-agent command shape from `_launchAgentPane`'s switch. -/
def agentCmd (workspace agentName taskPrompt : String) : String :=
  let promptFile := promptPath workspace agentName
  if agentName = "gemini" then
    "gemini \"" ++ firstLine (escQuotes taskPrompt) ++ "\""
  else if agentName = "copilot" then
    "cat " ++ promptFile ++ " | gh copilot suggest -t shell"
  else if agentName = "codex" then
    "codex \"" ++ promptFile ++ "\""
  else "opencode"

/-- `'~/.x'.replace('~', process.env.HOME)` for the registry's paths (all
of which start with `~`). -/
def replaceTilde (home s : String) : String :=
  if s.startsWith "~" then home ++ s.drop 1 else s

/-- `Distributor._superpowersBootstrap`. -/
def superpowersBootstrap (home agentName : String) : String :=
  match List.lookup agentName AGENTS with
  | some a =>
    "export SUPERPOWERS_SKILLS_ROOT=\""
      ++ pjoin (pjoin (replaceTilde home a.superpowersDir) "superpowers")
          "skills" ++ "\""
  | none => ""

/-- `Distributor._statusScript` (an empty `ROADMAP.md` content is falsy in
JavaScript, so it falls through to the plain-plan branch). -/
def statusScript (workspace sessionId : String) (plan : Plan) : String :=
  let header := "echo \"━━━ ZEROCLAW SUPERVISOR ━━━\" && echo \"Session: "
    ++ sessionId ++ "\" && echo \"Workspace: " ++ workspace
    ++ "\" && echo \"\""
  let plain := header ++ " && echo \"Plan: "
    ++ pjoin (pjoin workspace ".planning") "PLAN.md" ++ "\""
  match List.lookup "ROADMAP.md" plan.files with
  | some c =>
    if c ≠ "" then
      header ++ " && cat " ++ pjoin (pjoin workspace ".planning") "ROADMAP.md"
        ++ " 2>/dev/null || echo \"No roadmap yet.\""
    else plain
  | none => plain

/-! ### Pane launches -/

/-- `Distributor._launchAgentPane`: unknown agents return silently; the
task prompt is written first; then tmux window creation and key sends run
with no catch — a failure propagates as `Except.error` carrying the world
at that point (prompt written, no pane, no commands). -/
def launchAgentPane (workspace home : String) (tmuxFail : String → Bool)
    (sessionName agentName taskPrompt : String) (w : World) :
    Except World World :=
  match List.lookup agentName AGENTS with
  | none => .ok w
  | some _ =>
    let w1 : World :=
      { w with
        fs := fsWrite w.fs (promptPath workspace agentName) taskPrompt }
    if tmuxFail agentName then .error w1
    else
      let fullCmd := superpowersBootstrap home agentName ++ " && "
        ++ agentCmd workspace agentName taskPrompt
      .ok { w1 with
        panes := w1.panes ++ [agentName],
        cmds := w1.cmds
          ++ [(agentName, "cd " ++ workspace), (agentName, fullCmd)],
        logs := w1.logs ++ ["info:  [" ++ agentName
          ++ "] launched in tmux window \"" ++ agentName ++ "\""] }

/-- The world after a successful `_launchAgentPane` (helper for stating
what a completed launch loop did). -/
def launchAgentPaneOk (workspace home sessionName agentName
    taskPrompt : String) (w : World) : World :=
  match List.lookup agentName AGENTS with
  | none => w
  | some _ =>
    let w1 : World :=
      { w with
        fs := fsWrite w.fs (promptPath workspace agentName) taskPrompt }
    let fullCmd := superpowersBootstrap home agentName ++ " && "
      ++ agentCmd workspace agentName taskPrompt
    { w1 with
      panes := w1.panes ++ [agentName],
      cmds := w1.cmds
        ++ [(agentName, "cd " ++ workspace), (agentName, fullCmd)],
      logs := w1.logs ++ ["info:  [" ++ agentName
        ++ "] launched in tmux window \"" ++ agentName ++ "\""] }

/-- The `for (const [agentName, tasks] of Object.entries(assignments))`
loop in `_launchTmux`: sequential, and an uncaught launch error stops it. -/
def launchPanes (workspace home : String) (tmuxFail : String → Bool)
    (sessionName : String) (plan : Plan) :
    AMap → World → Except World World
  | [], w => .ok w
  | (a, ts) :: rest, w =>
    match launchAgentPane workspace home tmuxFail sessionName a
        (buildAgentPrompt workspace a ts plan) w with
    | .error w1 => .error w1
    | .ok w1 => launchPanes workspace home tmuxFail sessionName plan rest w1

/-- `Distributor._launchTmux`: kill any stale `zeroclaw` session (failure
swallowed), create the detached session with the `supervisor` window and
its status script, launch one window per assignment entry, then set the
layout. -/
def launchTmux (workspace home sessionId tmuxLayout : String)
    (tmuxFail : String → Bool) (assignments : AMap) (plan : Plan)
    (w : World) : Except World World :=
  let w1 : World := { w with
    panes := w.panes ++ ["supervisor"],
    cmds := w.cmds ++ [("supervisor", statusScript workspace sessionId plan)] }
  match launchPanes workspace home tmuxFail "zeroclaw" plan assignments w1 with
  | .error w2 => .error w2
  | .ok w2 =>
    .ok { w2 with cmds := w2.cmds
      ++ [("zeroclaw", "select-layout " ++ tmuxLayout)] }

/-- `Distributor._tmuxNewPane` (used by `resumeFromState`): unlike
`_launchAgentPane`, its tmux calls sit inside `try … catch`, so a failure
degrades to a logged warning. -/
def tmuxNewPane (tmuxFail : String → Bool) (name cmd : String)
    (w : World) : World :=
  if tmuxFail name then
    { w with logs := w.logs
      ++ ["warn:Could not create tmux pane for " ++ name] }
  else
    { w with panes := w.panes ++ [name], cmds := w.cmds ++ [(name, cmd)] }

/-- `Distributor.run`: report the task count, fast-fail when the probe
found no agents, otherwise provision, write artifacts, assign round-robin,
and launch. `available` is the result of the `_detectAgents` probe. -/
def runDistributor (workspace home sessionId tmuxLayout : String)
    (tmuxFail : String → Bool) (plan : Plan) (available : List String)
    (w : World) : Except World World :=
  let w0 : World := { w with logs := w.logs
    ++ ["section:Task Distribution " ++ toString plan.tasks.length
        ++ " task(s) found"] }
  if available.length = 0 then
    .ok { w0 with logs := w0.logs
      ++ ["error:No supported agents found (gemini / copilot / codex / opencode). Install at least one."] }
  else
    let w1 : World := { w0 with logs := w0.logs
      ++ ["info:Available agents: " ++ String.intercalate ", " available] }
    let w2 : World := { w1 with provisioned := w1.provisioned ++ available }
    let w3 : World := { w2 with fs := writePlanArtifacts workspace plan w2.fs }
    let assignments := assignTasks plan.tasks available
    let w4 : World := { w3 with logs := w3.logs ++ "info:Task assignments:"
      :: (assignments.map (fun ats =>
            ats.2.map (fun t => "info:  [" ++ ats.1 ++ "] " ++ t))).flatten }
    match launchTmux workspace home sessionId tmuxLayout tmuxFail
        assignments plan w4 with
    | .error w5 => .error w5
    | .ok w5 => .ok { w5 with logs := w5.logs ++ ["done:All agents launched."] }

/-- Projection helpers for stating results of fallible launches. -/
def isError {ε α : Type} : Except ε α → Bool
  | .error _ => true
  | .ok _ => false

def exWorld : Except World World → World
  | .error w => w
  | .ok w => w

/-! ### Launch-loop lemmas -/

theorem launchAgentPane_ok (workspace home sessionName agentName
    taskPrompt : String) (tmuxFail : String → Bool) (w : World)
    (h : tmuxFail agentName = false) :
    launchAgentPane workspace home tmuxFail sessionName agentName
        taskPrompt w
      = .ok (launchAgentPaneOk workspace home sessionName agentName
          taskPrompt w) := by
  unfold launchAgentPane launchAgentPaneOk
  cases List.lookup agentName AGENTS with
  | none => rfl
  | some info => simp [h]

/-- The world after an all-successful launch loop. -/
def launchFold (workspace home sessionName : String) (plan : Plan)
    (rows : AMap) (w : World) : World :=
  rows.foldl (fun acc bts => launchAgentPaneOk workspace home sessionName
    bts.1 (buildAgentPrompt workspace bts.1 bts.2 plan) acc) w

theorem launchPanes_head_failure (workspace home sessionName : String)
    (tmuxFail : String → Bool) (plan : Plan) (a : String)
    (ts : List String) (rest : AMap) (w : World)
    (hreg : (List.lookup a AGENTS).isSome = true)
    (hfail : tmuxFail a = true) :
    launchPanes workspace home tmuxFail sessionName plan ((a, ts) :: rest) w
      = .error { w with
          fs := fsWrite w.fs (promptPath workspace a)
            (buildAgentPrompt workspace a ts plan) } := by
  have hpane : launchAgentPane workspace home tmuxFail sessionName a
      (buildAgentPrompt workspace a ts plan) w
      = .error { w with
          fs := fsWrite w.fs (promptPath workspace a)
            (buildAgentPrompt workspace a ts plan) } := by
    unfold launchAgentPane
    cases hl : List.lookup a AGENTS with
    | none => rw [hl] at hreg; exact absurd hreg (by simp)
    | some info => simp [hfail]
  rw [launchPanes, hpane]

theorem launchPanes_append (workspace home sessionName : String)
    (tmuxFail : String → Bool) (plan : Plan) :
    ∀ (pre rows : AMap) (w : World),
    (∀ b ∈ pre.map Prod.fst, tmuxFail b = false) →
    launchPanes workspace home tmuxFail sessionName plan (pre ++ rows) w
      = launchPanes workspace home tmuxFail sessionName plan rows
          (launchFold workspace home sessionName plan pre w) := by
  intro pre
  induction pre with
  | nil => intro rows w _; rfl
  | cons bts pre' ih =>
    intro rows w hpre
    obtain ⟨b, ts⟩ := bts
    rw [List.cons_append, launchPanes,
      launchAgentPane_ok _ _ _ _ _ _ _ (hpre b (by simp))]
    exact ih rows _ (fun x hx => hpre x (by simp [hx]))

theorem launchPanes_all_ok (workspace home sessionName : String)
    (tmuxFail : String → Bool) (plan : Plan) (rows : AMap) (w : World)
    (h : ∀ b ∈ rows.map Prod.fst, tmuxFail b = false) :
    launchPanes workspace home tmuxFail sessionName plan rows w
      = .ok (launchFold workspace home sessionName plan rows w) := by
  have happ := launchPanes_append workspace home sessionName tmuxFail plan
    rows [] w h
  rwa [List.append_nil] at happ

theorem panes_mono_launchAgentPaneOk (workspace home sessionName b
    taskPrompt : String) (w : World) {a : String} (h : a ∈ w.panes) :
    a ∈ (launchAgentPaneOk workspace home sessionName b taskPrompt w).panes := by
  unfold launchAgentPaneOk
  cases List.lookup b AGENTS with
  | none => exact h
  | some info => exact List.mem_append_left _ h

theorem panes_self_launchAgentPaneOk (workspace home sessionName
    taskPrompt : String) (w : World) {a : String}
    (hreg : (List.lookup a AGENTS).isSome = true) :
    a ∈ (launchAgentPaneOk workspace home sessionName a taskPrompt w).panes := by
  unfold launchAgentPaneOk
  cases hl : List.lookup a AGENTS with
  | none => rw [hl] at hreg; exact absurd hreg (by simp)
  | some info =>
    exact List.mem_append_right _ (List.mem_singleton_self a)

theorem panes_mono_launchFold (workspace home sessionName : String)
    (plan : Plan) :
    ∀ (rows : AMap) (w : World) (a : String), a ∈ w.panes →
    a ∈ (launchFold workspace home sessionName plan rows w).panes := by
  intro rows
  induction rows with
  | nil => intro w a h; exact h
  | cons bts rest ih =>
    intro w a h
    exact ih _ a (panes_mono_launchAgentPaneOk _ _ _ _ _ _ h)

theorem panes_self_launchFold (workspace home sessionName : String)
    (plan : Plan) :
    ∀ (rows : AMap) (w : World) (a : String), a ∈ rows.map Prod.fst →
    (List.lookup a AGENTS).isSome = true →
    a ∈ (launchFold workspace home sessionName plan rows w).panes := by
  intro rows
  induction rows with
  | nil => intro w a h _; simp at h
  | cons bts rest ih =>
    intro w a ha hreg
    obtain ⟨b, ts⟩ := bts
    rcases List.mem_cons.mp ha with he | hr
    · subst he
      exact panes_mono_launchFold _ _ _ _ rest _ a
        (panes_self_launchAgentPaneOk _ _ _ _ _ hreg)
    · exact ih _ a hr hreg

/-- The two `send-keys` commands a successful launch sends to an agent's
window: `cd <workspace>`, then the bootstrap-plus-agent command. -/
def agentCdCmd (workspace agentName : String) : String × String :=
  (agentName, "cd " ++ workspace)

def agentFullCmd (home workspace agentName taskPrompt : String) :
    String × String :=
  (agentName, superpowersBootstrap home agentName ++ " && "
    ++ agentCmd workspace agentName taskPrompt)

theorem cmds_mono_launchAgentPaneOk (workspace home sessionName b
    taskPrompt : String) (w : World) {e : String × String}
    (h : e ∈ w.cmds) :
    e ∈ (launchAgentPaneOk workspace home sessionName b taskPrompt w).cmds := by
  unfold launchAgentPaneOk
  cases List.lookup b AGENTS with
  | none => exact h
  | some info => exact List.mem_append_left _ h

theorem cmds_self_launchAgentPaneOk (workspace home sessionName a
    taskPrompt : String) (w : World)
    (hreg : (List.lookup a AGENTS).isSome = true) :
    agentCdCmd workspace a
      ∈ (launchAgentPaneOk workspace home sessionName a taskPrompt w).cmds
    ∧ agentFullCmd home workspace a taskPrompt
      ∈ (launchAgentPaneOk workspace home sessionName a taskPrompt w).cmds := by
  unfold launchAgentPaneOk
  cases hl : List.lookup a AGENTS with
  | none => rw [hl] at hreg; exact absurd hreg (by simp)
  | some info =>
    constructor
    · exact List.mem_append_right _ (by simp [agentCdCmd])
    · exact List.mem_append_right _ (by simp [agentFullCmd])

theorem cmds_mono_launchFold (workspace home sessionName : String)
    (plan : Plan) :
    ∀ (rows : AMap) (w : World) (e : String × String), e ∈ w.cmds →
    e ∈ (launchFold workspace home sessionName plan rows w).cmds := by
  intro rows
  induction rows with
  | nil => intro w e h; exact h
  | cons bts rest ih =>
    intro w e h
    exact ih _ e (cmds_mono_launchAgentPaneOk _ _ _ _ _ _ h)

theorem cmds_self_launchFold (workspace home sessionName : String)
    (plan : Plan) :
    ∀ (rows : AMap) (w : World), ∀ row ∈ rows,
    (List.lookup row.1 AGENTS).isSome = true →
    agentCdCmd workspace row.1
      ∈ (launchFold workspace home sessionName plan rows w).cmds
    ∧ agentFullCmd home workspace row.1
        (buildAgentPrompt workspace row.1 row.2 plan)
      ∈ (launchFold workspace home sessionName plan rows w).cmds := by
  intro rows
  induction rows with
  | nil => intro w row h _; simp at h
  | cons bts rest ih =>
    intro w row hrow hreg
    rcases List.mem_cons.mp hrow with he | hr
    · subst he
      obtain ⟨h1, h2⟩ := cmds_self_launchAgentPaneOk workspace home
        sessionName row.1 (buildAgentPrompt workspace row.1 row.2 plan) w hreg
      exact ⟨cmds_mono_launchFold _ _ _ _ rest _ _ h1,
        cmds_mono_launchFold _ _ _ _ rest _ _ h2⟩
    · exact ih _ row hr hreg

/-! ## Claim theorems for the distribution pipeline -/

/-- C6: with an empty available-worker set, `run` logs the section header
and the `NoWorkersAvailable` error and returns: no pane, no command, no
provisioning, no file write — nothing but the two log lines. -/
theorem C6_no_workers_fast_fail (workspace home sessionId
    tmuxLayout : String) (tmuxFail : String → Bool) (plan : Plan)
    (w : World) :
    runDistributor workspace home sessionId tmuxLayout tmuxFail plan [] w
      = .ok { w with logs := w.logs
          ++ ["section:Task Distribution " ++ toString plan.tasks.length
              ++ " task(s) found",
            "error:No supported agents found (gemini / copilot / codex / opencode). Install at least one."] } := by
  unfold runDistributor
  rw [if_pos (show ([] : List String).length = 0 from rfl)]
  simp

/-- The filesystem state for the C8 counterexample: nothing on disk yet. -/
def emptyWorld : World := ⟨[], [], [], [], []⟩

/-- A two-task plan for the launch-failure scenarios. -/
def c8Plan : Plan := ⟨"project", none, ["T1", "T2"], []⟩

/-- tmux window creation fails for `gemini` only. -/
def c8Fail : String → Bool := fun a => a == "gemini"

/-- The distribution run with workers `gemini` (fails) and `copilot`. -/
def c8Run : Except World World :=
  runDistributor "/ws" "/home/u" "sid" "tiled" c8Fail c8Plan
    ["gemini", "copilot"] emptyWorld

/-- C8 counterexample: when launching worker 1 of 2 fails, the cycle does
not continue as a partial success — the error propagates and worker 2
(`copilot`) is never launched: the only window ever created is the
supervisor pane. -/
theorem C8_counterexample :
    isError c8Run = true
  ∧ (exWorld c8Run).panes = ["supervisor"]
  ∧ "copilot" ∉ (exWorld c8Run).panes := by
  decide

/-- C8 amended: an individual launch failure is NOT caught in
`_launchAgentPane`/`_launchTmux`: the failing worker's prompt file is
written, then the error propagates immediately, aborting the launches of
all remaining workers (workers before the failing one do launch).  Only
the resume path (`_tmuxNewPane`) catches pane-creation failures and
degrades them to a logged warning. -/
theorem C8_launch_failure_aborts :
    (∀ (workspace home sessionName : String) (tmuxFail : String → Bool)
        (plan : Plan) (a : String) (ts : List String) (rest : AMap)
        (w : World),
        (List.lookup a AGENTS).isSome = true → tmuxFail a = true →
        launchPanes workspace home tmuxFail sessionName plan
            ((a, ts) :: rest) w
          = .error { w with
              fs := fsWrite w.fs (promptPath workspace a)
                (buildAgentPrompt workspace a ts plan) })
  ∧ (∀ (workspace home sessionName : String) (tmuxFail : String → Bool)
        (plan : Plan) (pre rows : AMap) (w : World),
        (∀ b ∈ pre.map Prod.fst, tmuxFail b = false) →
        launchPanes workspace home tmuxFail sessionName plan
            (pre ++ rows) w
          = launchPanes workspace home tmuxFail sessionName plan rows
              (launchFold workspace home sessionName plan pre w))
  ∧ (∀ (tmuxFail : String → Bool) (name cmd : String) (w : World),
        tmuxFail name = true →
        tmuxNewPane tmuxFail name cmd w
          = { w with logs := w.logs
              ++ ["warn:Could not create tmux pane for " ++ name] }) := by
  refine ⟨launchPanes_head_failure, ?_, ?_⟩
  · intro workspace home sessionName tmuxFail plan pre rows w h
    exact launchPanes_append workspace home sessionName tmuxFail plan
      pre rows w h
  · intro tmuxFail name cmd w h
    rw [tmuxNewPane, if_pos h]

/-- Witness for the amended C8 at a concrete failing launch. -/
theorem C8_launch_failure_aborts_witness :
    launchPanes "/ws" "/home/u" c8Fail "zeroclaw" c8Plan
        [("gemini", ["T1"]), ("copilot", ["T2"])] emptyWorld
      = .error { emptyWorld with
          fs := fsWrite emptyWorld.fs (promptPath "/ws" "gemini")
            (buildAgentPrompt "/ws" "gemini" ["T1"] c8Plan) } :=
  C8_launch_failure_aborts.1 "/ws" "/home/u" "zeroclaw" c8Fail c8Plan
    "gemini" ["T1"] [("copilot", ["T2"])] emptyWorld (by decide) (by decide)

/-- C10: the assignment's key set is exactly the available workers — a
worker beyond the task count is mapped to `[]`, not omitted — and the
launch loop still creates a tmux window for every assignment key
(zero-task workers included) when no launch fails. -/
theorem C10_all_workers_launched :
    (∀ (tasks agents : List String) (a : String),
        a ∈ (assignTasks tasks agents).map Prod.fst ↔ a ∈ agents)
  ∧ (∀ (tasks agents : List String) (j : Nat), agents ≠ [] →
        agents.Nodup → j < agents.length → tasks.length ≤ j →
        workerTasks tasks agents (agents.getD j "") = [])
  ∧ (∀ (workspace home sessionName : String) (tmuxFail : String → Bool)
        (plan : Plan) (assignments : AMap) (w : World),
        (∀ a ∈ assignments.map Prod.fst,
            (List.lookup a AGENTS).isSome = true ∧ tmuxFail a = false) →
        isError (launchPanes workspace home tmuxFail sessionName plan
            assignments w) = false
        ∧ (∀ a ∈ assignments.map Prod.fst,
            a ∈ (exWorld (launchPanes workspace home tmuxFail sessionName
              plan assignments w)).panes)
        ∧ ∀ row ∈ assignments,
            agentFullCmd home workspace row.1
                (buildAgentPrompt workspace row.1 row.2 plan)
              ∈ (exWorld (launchPanes workspace home tmuxFail sessionName
                plan assignments w)).cmds) := by
  refine ⟨mem_keys_assignTasks, ?_, ?_⟩
  · intro tasks agents j hne hnd hj hbeyond
    rw [workerTasks_eq_slots tasks agents hne hnd j hj]
    have hN : tasks.length < agents.length := lt_of_le_of_lt hbeyond hj
    have hz : slotCount tasks.length agents.length j = 0 := by
      unfold slotCount
      rw [Nat.div_eq_of_lt hN, Nat.mod_eq_of_lt hN, if_neg (by omega)]
    rw [hz]
    rfl
  · intro workspace home sessionName tmuxFail plan assignments w hall
    have hok := launchPanes_all_ok workspace home sessionName tmuxFail plan
      assignments w (fun a ha => (hall a ha).2)
    rw [hok]
    refine ⟨rfl, ?_, ?_⟩
    · intro a ha
      exact panes_self_launchFold workspace home sessionName plan
        assignments w a ha (hall a ha).1
    · intro row hrow
      exact (cmds_self_launchFold workspace home sessionName plan
        assignments w row hrow
        (hall row.1 (List.mem_map_of_mem Prod.fst hrow)).1).2

/-- Witness for C10: `copilot`, assigned zero tasks, still gets a pane. -/
theorem C10_all_workers_launched_witness :
    "copilot" ∈ (exWorld (launchPanes "/ws" "/home/u" (fun _ => false)
        "zeroclaw" c8Plan [("gemini", ["A"]), ("copilot", [])]
        emptyWorld)).panes :=
  (C10_all_workers_launched.2.2 "/ws" "/home/u" "zeroclaw" (fun _ => false)
      c8Plan [("gemini", ["A"]), ("copilot", [])] emptyWorld
      (by decide)).2.1 "copilot" (by decide)

end Zeroclaw
